import Mathlib

/-!
Verification of the Redshift-to-Snowflake dialect-translation pipeline
(`parser/snowflake_parser.py`).

The source module is a driver `parse_redshift_to_snowflake` that threads a
SQL string through a fixed ordered registry `parsers` of sixteen rewrite
rules.  Each rule is a pure text-to-text function built from `re.sub`
calls.  We embed the rules here over a small executable model of the
regex-substitution primitive, restricted to exactly the constructs the
source patterns use: case-insensitive literals, single-character classes,
greedy `*`/`+` over a character class, `.` with and without DOTALL,
alternation, an optional group, capturing groups, and `\n`-style
back-references in the replacement.  Matching follows Python's semantics:
leftmost match, greedy quantifiers with backtracking, alternatives tried
left to right, substitution of all non-overlapping matches left to right.
-/

set_option maxRecDepth 20000

/-- Regular-expression abstract syntax, as used by the source patterns.
`star`/`plus` only ever apply to a single-character class in the source,
which is what makes backtracking obviously terminating. -/
inductive Rx where
  | lit  : List Char → Rx
  | cls  : (Char → Bool) → Rx
  | star : (Char → Bool) → Rx
  | plus : (Char → Bool) → Rx
  | seq  : Rx → Rx → Rx
  | alt  : Rx → Rx → Rx
  | opt  : Rx → Rx
  | grp  : Nat → Rx → Rx

/-- Captured groups: group number paired with the matched characters. -/
abbrev Caps := List (Nat × List Char)

/-- Result of a successful match attempt: remaining input and captures. -/
abbrev MRes := List Char × Caps

/-- Strip a literal from the front of the input, comparing characters
case-insensitively (every `re.sub` in the source passes `re.IGNORECASE`). -/
def stripLitCI : List Char → List Char → Option (List Char)
  | [], s => some s
  | _ :: _, [] => none
  | p :: ps, c :: cs => if p.toLower = c.toLower then stripLitCI ps cs else none

/-- Greedy Kleene star over a character class: try consuming as many
class characters as possible, backtracking one at a time into the
continuation `k`, exactly as a backtracking engine does. -/
def starAux (p : Char → Bool) (k : List Char → Option MRes) : List Char → Option MRes
  | [] => k []
  | c :: rest =>
    if p c then
      match starAux p k rest with
      | some r => some r
      | none => k (c :: rest)
    else k (c :: rest)

/-- Backtracking matcher in continuation-passing style.  `k` receives the
unconsumed input and the capture list; the first success in backtracking
order (greedy, alternatives left first) is returned, matching Python. -/
def matchRx : Rx → List Char → Caps → (List Char → Caps → Option MRes) → Option MRes
  | Rx.lit l, s, caps, k =>
    match stripLitCI l s with
    | some rest => k rest caps
    | none => none
  | Rx.cls p, s, caps, k =>
    match s with
    | [] => none
    | c :: rest => if p c then k rest caps else none
  | Rx.star p, s, caps, k => starAux p (fun rest => k rest caps) s
  | Rx.plus p, s, caps, k =>
    match s with
    | [] => none
    | c :: rest => if p c then starAux p (fun r2 => k r2 caps) rest else none
  | Rx.seq a b, s, caps, k => matchRx a s caps (fun s2 caps2 => matchRx b s2 caps2 k)
  | Rx.alt a b, s, caps, k =>
    match matchRx a s caps k with
    | some r => some r
    | none => matchRx b s caps k
  | Rx.opt a, s, caps, k =>
    match matchRx a s caps k with
    | some r => some r
    | none => k s caps
  | Rx.grp n a, s, caps, k =>
    matchRx a s caps (fun s2 caps2 => k s2 ((n, s.take (s.length - s2.length)) :: caps2))

/-- Attempt to match `r` at the start of `s`. -/
def tryMatch (r : Rx) (s : List Char) : Option MRes :=
  matchRx r s [] (fun rest caps => some (rest, caps))

/-- Replacement-template item: a literal chunk or a `\n` back-reference. -/
inductive RItem where
  | str : List Char → RItem
  | ref : Nat → RItem

/-- Replacement template, as Python parses the replacement string. -/
abbrev Repl := List RItem

/-- Look up a captured group (most recent binding first). -/
def capGet (caps : Caps) (n : Nat) : List Char :=
  match caps.find? (fun e => e.1 == n) with
  | some e => e.2
  | none => []

/-- Instantiate a replacement template with the captures of a match. -/
def applyRepl (caps : Caps) (repl : Repl) : List Char :=
  repl.foldr
    (fun it acc =>
      (match it with
       | RItem.str l => l
       | RItem.ref n => capGet caps n) ++ acc) []

/-- Scan of `re.sub`: walk left to right, replace each leftmost
non-overlapping match, copy non-matching characters through.  A
zero-width match substitutes and then copies one character, as in
Python 3.7+ (no source pattern can actually match the empty string).
The scan is written with explicit fuel so that it is structurally
recursive; `subAux` below always supplies enough fuel (consuming a match
shortens the input, and otherwise one character is consumed). -/
def subAuxF (r : Rx) (repl : Repl) : Nat → List Char → List Char
  | 0, s => s
  | _ + 1, [] =>
    (match tryMatch r [] with
     | some (_, caps) => applyRepl caps repl
     | none => [])
  | fuel + 1, c :: s2 =>
    match tryMatch r (c :: s2) with
    | some (rest, caps) =>
      if rest.length < s2.length + 1 then
        applyRepl caps repl ++ subAuxF r repl fuel rest
      else
        applyRepl caps repl ++ (c :: subAuxF r repl fuel s2)
    | none => c :: subAuxF r repl fuel s2

/-- Substitution scan with the fuel fixed to a sufficient value. -/
def subAux (r : Rx) (repl : Repl) (s : List Char) : List Char :=
  subAuxF r repl (s.length + 1) s

/-- Model of `re.sub(pattern, replace, sql, flags=...)` on strings. -/
def reSub (r : Rx) (repl : Repl) (s : String) : String :=
  String.mk (subAux r repl s.data)

/-- Concatenation of regex pieces. -/
def rcat (l : List Rx) : Rx := l.foldr Rx.seq (Rx.lit [])

/-- Case-insensitive literal piece from a string. -/
def rlit (s : String) : Rx := Rx.lit s.data

/-- Literal chunk of a replacement template. -/
def rstr (s : String) : RItem := RItem.str s.data

/-- Back-reference chunk of a replacement template. -/
def rref (n : Nat) : RItem := RItem.ref n

/-- Class `[\s]` / `\s` of Python (ASCII whitespace characters). -/
def isSpaceP (c : Char) : Bool :=
  c == ' ' || c == '\t' || c == '\n' || c == '\r' || c == '\x0b' || c == '\x0c'

/-- Class `\d` / `[0-9]` of Python (ASCII digits). -/
def isDigitP (c : Char) : Bool := c.isDigit

/-- Class `\w` of Python (word characters, ASCII model). -/
def isWordP (c : Char) : Bool := c.isAlphanum || c == '_'

/-- Class `.` without `re.DOTALL`: any character but a newline. -/
def notNl (c : Char) : Bool := c != '\n'

/-- Class `.` under `re.DOTALL`: any character. -/
def anyCh (_ : Char) : Bool := true

/-- Rule `parse_encoding`: remove encodings from DDL statements.
Patterns, all `re.IGNORECASE`:
`r"[\s]encode .*,"` → `","`; `r"[\s]encode .*"` → `""`;
`r"[\s]timestamp without time zone"` → `" timestamp_ntz(9)"`. -/
def parse_encoding (sql : String) : String :=
  let s1 := reSub (rcat [Rx.cls isSpaceP, rlit "encode ", Rx.star notNl, rlit ","])
    [rstr ","] sql
  let s2 := reSub (rcat [Rx.cls isSpaceP, rlit "encode ", Rx.star notNl]) [] s1
  reSub (rcat [Rx.cls isSpaceP, rlit "timestamp without time zone"])
    [rstr " timestamp_ntz(9)"] s2

/-- Second pattern of `parse_dist_sort`: `r"distkey.*\)"` compiled with
`re.IGNORECASE + re.MULTILINE + re.DOTALL` (no `^`/`$` occurs, so
MULTILINE is inert; DOTALL makes `.` match any character). -/
def distkeyCloseRx : Rx := rcat [rlit "distkey", Rx.star anyCh, rlit ")"]

/-- Rule `parse_dist_sort`: remove diststyle and sortkeys from DDL statements.
Patterns in source order:
`r"[\s]diststyle (all|even|auto|key)"` → `""` (IGNORECASE);
`r"distkey.*\)"` → `""` (IGNORECASE+MULTILINE+DOTALL);
`r"[\s]diststyle.*\)"` → `""` (IGNORECASE);
`r"((compound|interleaved) )?sortkey\s*\([^\(]*\)"` → `""` (IGNORECASE+MULTILINE+DOTALL);
`r"distkey"` → `""` (IGNORECASE+MULTILINE+DOTALL).
No pattern uses `^`/`$`, so MULTILINE is inert; DOTALL turns `.` into `anyCh`. -/
def parse_dist_sort (sql : String) : String :=
  let s1 := reSub (rcat [Rx.cls isSpaceP, rlit "diststyle ",
    Rx.grp 1 (Rx.alt (rlit "all") (Rx.alt (rlit "even") (Rx.alt (rlit "auto") (rlit "key"))))])
    [] sql
  let s2 := reSub distkeyCloseRx [] s1
  let s3 := reSub (rcat [Rx.cls isSpaceP, rlit "diststyle", Rx.star notNl, rlit ")"]) [] s2
  let s4 := reSub (rcat [
    Rx.opt (Rx.grp 1 (Rx.seq (Rx.grp 2 (Rx.alt (rlit "compound") (rlit "interleaved"))) (rlit " "))),
    rlit "sortkey", Rx.star isSpaceP, rlit "(", Rx.star (fun c => c != '('), rlit ")"]) [] s3
  reSub (rlit "distkey") [] s4

/-- Rule `parse_bool`: convert bool to boolean.
Patterns: `r" bool[\s]*([,\n])"` → `r" boolean\1"`;
`r"::[\s]*bool "` → `r":: boolean "` (both IGNORECASE). -/
def parse_bool (sql : String) : String :=
  let s1 := reSub (rcat [rlit " bool", Rx.star isSpaceP,
    Rx.grp 1 (Rx.cls (fun c => c == ',' || c == '\n'))]) [rstr " boolean", rref 1] sql
  reSub (rcat [rlit "::", Rx.star isSpaceP, rlit "bool "]) [rstr ":: boolean "] s1

/-- Rule `parse_int`: convert int synonyms to the snowflake data type.
Patterns `" integer" " int2" " int4" " int8" " bigint" " smallint"`,
each replaced by `" int"` in that order (IGNORECASE). -/
def parse_int (sql : String) : String :=
  [" integer", " int2", " int4", " int8", " bigint", " smallint"].foldl
    (fun s p => reSub (rlit p) [rstr " int"] s) sql

/-- Rule `parse_varchar`: `r" varchar\([0-9]+\)"` → `" VARCHAR"` (IGNORECASE). -/
def parse_varchar (sql : String) : String :=
  reSub (rcat [rlit " varchar(", Rx.plus isDigitP, rlit ")"]) [rstr " VARCHAR"] sql

/-- Class of characters stripped by Python's `str.rstrip("\n\r")`. -/
def isNlCr (c : Char) : Bool := c == '\n' || c == '\r'

/-- Model of Python's `str.rstrip`: drop trailing characters of a class. -/
def rstripP (p : Char → Bool) (s : String) : String :=
  String.mk ((s.data.reverse.dropWhile p).reverse)

/-- Rule `parse_trailing_whitespace`: remove trailing whitespace, newline,
line terminators — `sql.rstrip("\n\r").rstrip()`. -/
def parse_trailing_whitespace (sql : String) : String :=
  rstripP isSpaceP (rstripP isNlCr sql)

/-- Rule `parse_search_path`: `r"set search_path to "` → `"use schema "`. -/
def parse_search_path (sql : String) : String :=
  reSub (rlit "set search_path to ") [rstr "use schema "] sql

/-- Rule `parse_analyze`: remove all analyze statements —
`r"analyze [\.\w\s]*;"` → `""` (IGNORECASE). -/
def parse_analyze (sql : String) : String :=
  reSub (rcat [rlit "analyze ",
    Rx.star (fun c => c == '.' || isWordP c || isSpaceP c), rlit ";"]) [] sql

/-- Rule `parse_wlm_query_slot_count`:
`r"set wlm_query_slot_count to [\d]+;"` → `""` (IGNORECASE). -/
def parse_wlm_query_slot_count (sql : String) : String :=
  reSub (rcat [rlit "set wlm_query_slot_count to ", Rx.plus isDigitP, rlit ";"]) [] sql

/-- Rule `parse_ctas`: convert create-table-as statements —
`r"create table (.*) \([\s]*like[\s]*(.*)[\s]*\)"` →
`r"create table \1 like \2"` (IGNORECASE+MULTILINE). -/
def parse_ctas (sql : String) : String :=
  reSub (rcat [rlit "create table ", Rx.grp 1 (Rx.star notNl), rlit " (",
    Rx.star isSpaceP, rlit "like", Rx.star isSpaceP, Rx.grp 2 (Rx.star notNl),
    Rx.star isSpaceP, rlit ")"])
    [rstr "create table ", rref 1, rstr " like ", rref 2] sql

/-- Rule `parse_atrt`: convert alter-table-rename-to statements —
`r"alter table (\w+)\.(\w+) rename to (\w+)"` →
`r"alter table \1.\2 rename to \1.\3"` (IGNORECASE+MULTILINE). -/
def parse_atrt (sql : String) : String :=
  reSub (rcat [rlit "alter table ", Rx.grp 1 (Rx.plus isWordP), rlit ".",
    Rx.grp 2 (Rx.plus isWordP), rlit " rename to ", Rx.grp 3 (Rx.plus isWordP)])
    [rstr "alter table ", rref 1, rstr ".", rref 2, rstr " rename to ",
     rref 1, rstr ".", rref 3] sql

/-- Rule `parse_convert_timezone_utc`:
`r"convert_timezone\('utc'"` → `r"convert_timezone('UTC'"`. -/
def parse_convert_timezone_utc (sql : String) : String :=
  reSub (rlit "convert_timezone('utc'") [rstr "convert_timezone('UTC'"] sql

/-- Rule `parse_convert_timezone_pacific`:
`r"convert_timezone\(('pst'|'pdt')"` → `r"convert_timezone('America/Los_Angeles'"`. -/
def parse_convert_timezone_pacific (sql : String) : String :=
  reSub (rcat [rlit "convert_timezone(",
    Rx.grp 1 (Rx.alt (rlit "'pst'") (rlit "'pdt'"))])
    [rstr "convert_timezone('America/Los_Angeles'"] sql

/-- Rule `parse_convert_date_trunc_weeks`:
`r"date_trunc\('weeks'"` → `r"date_trunc('week'"`. -/
def parse_convert_date_trunc_weeks (sql : String) : String :=
  reSub (rlit "date_trunc('weeks'") [rstr "date_trunc('week'"] sql

/-- Substitution table of `parse_swap_methods`, in the source dict's
insertion order (Python dicts iterate in insertion order). -/
def swaps : List (Rx × Repl) :=
  [ (rlit "BOOL_OR", [rstr "BOOLOR_AGG"]),
    (rlit "BOOL_AND", [rstr "BOOLAND_AGG"]),
    (rlit " ~ '", [rstr " regexp '"]),
    (rlit "BTRIM", [rstr "TRIM"]),
    (rlit "CHAR_LENGTH", [rstr "LEN"]),
    (rlit "DATEPART", [rstr "DATE_PART"]),
    (rlit "DATE_DIFF", [rstr "DATEDIFF"]),
    (rlit "DATE_ADD(", [rstr "DATEADD("]),
    (rcat [Rx.grp 1 (Rx.alt (rlit "DATEDIFF") (rlit "DATE_DIFF")),
           Rx.grp 2 (rlit "('weeks',"), Rx.grp 3 (Rx.star notNl)],
     [rstr "DATEDIFF('week', ", rref 3]),
    (rlit "FROM_UNIXTIME", [rstr "TO_TIMESTAMP"]),
    (rcat [rlit "JSON_EXTRACT_PATH_TEXT(",
           Rx.grp 1 (Rx.star (fun c => isWordP c || c == '.')), rlit ", '",
           Rx.grp 2 (Rx.star isWordP), rlit "', true)"],
     [rref 1, rstr ":", rref 2]),
    (rlit "IS FALSE", [rstr " = FALSE"]),
    (rlit "IS TRUE", [rstr " = TRUE"]),
    (rlit "NVL", [rstr "COALESCE"]),
    (rlit "SYSDATE", [rstr "CURRENT_TIMESTAMP"]),
    (rlit "CEILING(", [rstr "CEIL("]),
    (rlit "ISNULL(", [rstr "NVL("]) ]

/-- Rule `parse_swap_methods`: simple 1:1 swaps of method names, applying
each entry of the `swaps` table in order with `re.sub(..., IGNORECASE)`. -/
def parse_swap_methods (sql : String) : String :=
  swaps.foldl (fun s pr => reSub pr.1 pr.2 s) sql

/-- Rule `parse_tmp`: project-specific fixups —
`r"production\.user_sessions_view"` → `"production.user_sessions"`;
`r"rating__bigint"` → `"rating"`. -/
def parse_tmp (sql : String) : String :=
  let s1 := reSub (rlit "production.user_sessions_view") [rstr "production.user_sessions"] sql
  reSub (rlit "rating__bigint") [rstr "rating"] s1

/-- Rules as the driver sees them: a rule application either returns the
rewritten text or signals a failure (a raised exception in the source). -/
abbrev Rule := String → Except String String

/-- Lift a pure source rule into the driver's rule type (the sixteen
registry rules are total and never raise). -/
def ruleOfFn (f : String → String) : Rule := fun s => Except.ok (f s)

/-- Loop body of `parse_redshift_to_snowflake`: for each rule, first
short-circuit on empty text (`if not sql: return sql`), then apply the
rule inside `try/except`, keeping the pre-failure text on failure. -/
def runRules : List Rule → String → String
  | [], s => s
  | r :: rest, s =>
    if s = "" then s
    else
      match r s with
      | Except.ok s2 => runRules rest s2
      | Except.error _ => runRules rest s

/-- Instrumented copy of `runRules` that also counts how many rules were
invoked, used to state that the empty-text short-circuit invokes none. -/
def runRulesCount : List Rule → String → String × Nat
  | [], s => (s, 0)
  | r :: rest, s =>
    if s = "" then (s, 0)
    else
      match r s with
      | Except.ok s2 => ((runRulesCount rest s2).1, (runRulesCount rest s2).2 + 1)
      | Except.error _ => ((runRulesCount rest s).1, (runRulesCount rest s).2 + 1)

/-- Driver body abstracted over the registry: `if not sql: return sql`
followed by the rule loop. -/
def parse_redshift_to_snowflake_with (rules : List Rule) (sql : String) : String :=
  if sql = "" then sql else runRules rules sql

/-- Registry `parsers`, in source order. -/
def parsers : List Rule :=
  [ ruleOfFn parse_encoding,
    ruleOfFn parse_dist_sort,
    ruleOfFn parse_bool,
    ruleOfFn parse_int,
    ruleOfFn parse_varchar,
    ruleOfFn parse_trailing_whitespace,
    ruleOfFn parse_swap_methods,
    ruleOfFn parse_search_path,
    ruleOfFn parse_analyze,
    ruleOfFn parse_ctas,
    ruleOfFn parse_atrt,
    ruleOfFn parse_tmp,
    ruleOfFn parse_wlm_query_slot_count,
    ruleOfFn parse_convert_timezone_utc,
    ruleOfFn parse_convert_timezone_pacific,
    ruleOfFn parse_convert_date_trunc_weeks ]

/-- The pipeline `parse_redshift_to_snowflake` on a present string. -/
def parse_redshift_to_snowflake (sql : String) : String :=
  parse_redshift_to_snowflake_with parsers sql

/-- The pipeline on a possibly-absent argument: Python's `if not sql:
return sql` returns `None` unchanged for `None`. -/
def parse_redshift_to_snowflake_opt : Option String → Option String
  | none => none
  | some s => some (parse_redshift_to_snowflake s)

/-- Substring test used to state "contains no ... fragment" properties. -/
def containsSub (hay nd : List Char) : Bool :=
  hay.tails.any (fun t => nd.isPrefixOf t)

/-- Balanced-parentheses check (auxiliary counter of open parens). -/
def parenOk : List Char → Nat → Bool
  | [], k => k == 0
  | c :: rest, k =>
    if c == '(' then parenOk rest (k + 1)
    else if c == ')' then
      match k with
      | 0 => false
      | k2 + 1 => parenOk rest k2
    else parenOk rest k

/-- Erase spaces, used to compare text "shapes" modulo inner whitespace. -/
def dropSpaces (l : List Char) : List Char := l.filter (fun c => c != ' ')

/-- Test for a closing parenthesis anywhere in the text. -/
def hasClose (l : List Char) : Bool := l.any (fun c => c == ')')

/-- Suffix of the text strictly after its last closing parenthesis (the
whole text when it has no closing parenthesis). -/
def afterLastClose (l : List Char) : List Char :=
  (l.reverse.takeWhile (fun c => c != ')')).reverse

/-- Index of the first case-insensitive occurrence of `nd` in the text,
matching the scan order of the substitution primitive. -/
def firstOccCI (nd : List Char) : List Char → Option Nat
  | [] =>
    (match stripLitCI nd [] with
     | some _ => some 0
     | none => none)
  | c :: t =>
    (match stripLitCI nd (c :: t) with
     | some _ => some 0
     | none => (firstOccCI nd t).map (fun j => j + 1))

/- Supporting lemmas about the driver. -/

theorem runRules_nil_input (rules : List Rule) : runRules rules "" = "" := by
  cases rules <;> simp [runRules]

theorem runRules_append (a b : List Rule) (s : String) :
    runRules (a ++ b) s = runRules b (runRules a s) := by
  induction a generalizing s with
  | nil => rfl
  | cons r rest ih =>
    show runRules (r :: (rest ++ b)) s = runRules b (runRules (r :: rest) s)
    by_cases hs : s = ""
    · subst hs
      simp [runRules, runRules_nil_input]
    · cases hrs : r s with
      | ok s2 => simp [runRules, hs, hrs, ih]
      | error e => simp [runRules, hs, hrs, ih]

theorem runRulesCount_fst (rules : List Rule) (s : String) :
    (runRulesCount rules s).1 = runRules rules s := by
  induction rules generalizing s with
  | nil => rfl
  | cons r rest ih =>
    by_cases hs : s = ""
    · subst hs; simp [runRules, runRulesCount]
    · cases hrs : r s with
      | ok s2 => simp [runRules, runRulesCount, hs, hrs, ih]
      | error e => simp [runRules, runRulesCount, hs, hrs, ih]

/- Supporting lemmas for idempotence of the trailing-whitespace rule. -/

theorem dropWhile_dropWhile_of_imp (p q : Char → Bool)
    (h : ∀ c, q c = true → p c = true) (l : List Char) :
    (l.dropWhile p).dropWhile q = l.dropWhile p := by
  induction l with
  | nil => rfl
  | cons c t ih =>
    by_cases hc : p c = true
    · simp [List.dropWhile_cons, hc, ih]
    · have hq : q c = false := by
        cases hqc : q c
        · rfl
        · exact absurd (h c hqc) hc
      simp [List.dropWhile_cons, hc, hq]

theorem isNlCr_imp_isSpaceP : ∀ c, isNlCr c = true → isSpaceP c = true := by
  intro c h
  simp only [isNlCr, Bool.or_eq_true, beq_iff_eq] at h
  rcases h with h | h <;> simp [isSpaceP, h]

theorem parse_trailing_whitespace_idem (s : String) :
    parse_trailing_whitespace (parse_trailing_whitespace s) =
      parse_trailing_whitespace s := by
  simp only [parse_trailing_whitespace, rstripP, List.reverse_reverse]
  rw [dropWhile_dropWhile_of_imp isSpaceP isNlCr isNlCr_imp_isSpaceP,
    dropWhile_dropWhile_of_imp isSpaceP isSpaceP (fun c hc => hc)]

/- Supporting lemmas for the greedy behavior of the `distkey.*\)`
substitution of `parse_dist_sort`. -/

theorem toLower_close_iff (c : Char) : ')'.toLower = c.toLower ↔ c = ')' := by
  constructor
  · intro h
    have h0 : ')'.toLower = ')' := by decide
    rw [h0] at h
    have h' : ')' = if c.toNat ≥ 65 ∧ c.toNat ≤ 90 then Char.ofNat (c.toNat + 32) else c := h
    clear h
    split at h'
    · rename_i hc
      exfalso
      obtain ⟨h1, h2⟩ := hc
      obtain ⟨n, hn⟩ : ∃ n, c.toNat = n := ⟨_, rfl⟩
      rw [hn] at h' h1 h2
      interval_cases n <;> exact absurd h' (by decide)
    · exact h'.symm
  · intro h
    rw [h]

theorem stripLitCI_some :
    ∀ (nd l r : List Char), stripLitCI nd l = some r → r = l.drop nd.length := by
  intro nd
  induction nd with
  | nil =>
    intro l r h
    simp only [stripLitCI, Option.some.injEq] at h
    simp [h.symm]
  | cons p ps ih =>
    intro l r h
    cases l with
    | nil => exact absurd h (by simp [stripLitCI])
    | cons c cs =>
      simp only [stripLitCI] at h
      split at h
      · have := ih cs r h
        simpa [List.drop_succ_cons] using this
      · exact absurd h (by simp)

theorem takeWhile_all_append (p : Char → Bool) (xs ys : List Char)
    (h : ∃ x ∈ xs, p x = false) :
    (xs ++ ys).takeWhile p = xs.takeWhile p := by
  induction xs with
  | nil =>
    obtain ⟨x, hx, _⟩ := h
    exact absurd hx (by simp)
  | cons a xs2 ih =>
    obtain ⟨x, hx, hpx⟩ := h
    rcases List.mem_cons.mp hx with rfl | hx2
    · rw [List.cons_append, List.takeWhile_cons, List.takeWhile_cons, hpx]
      simp
    · cases hpa : p a
      · rw [List.cons_append, List.takeWhile_cons, List.takeWhile_cons, hpa]
        simp
      · rw [List.cons_append, List.takeWhile_cons, List.takeWhile_cons, hpa]
        simp only [if_true]
        rw [ih ⟨x, hx2, hpx⟩]

theorem takeWhile_eq_self_of_no_close (l : List Char) (h : hasClose l = false) :
    l.takeWhile (fun c => c != ')') = l := by
  induction l with
  | nil => rfl
  | cons a t ih =>
    simp only [hasClose, List.any_cons, Bool.or_eq_false_iff] at h
    rw [List.takeWhile_cons]
    have ha : (a != ')') = true := by
      simpa using h.1
    rw [ha]
    simp only [if_true]
    rw [ih h.2]

theorem hasClose_afterLastClose (l : List Char) : hasClose (afterLastClose l) = false := by
  unfold hasClose afterLastClose
  rw [List.any_reverse]
  rw [Bool.eq_false_iff]
  intro hany
  rw [List.any_eq_true] at hany
  obtain ⟨x, hx, hbeq⟩ := hany
  have hkeep := List.mem_takeWhile_imp hx
  rw [beq_iff_eq] at hbeq
  rw [hbeq] at hkeep
  exact absurd hkeep (by simp)

theorem afterLastClose_length_le (l : List Char) :
    (afterLastClose l).length ≤ l.length := by
  unfold afterLastClose
  rw [List.length_reverse]
  calc (l.reverse.takeWhile (fun c => c != ')')).length
      ≤ l.reverse.length := (List.takeWhile_sublist _).length_le
    _ = l.length := List.length_reverse l

theorem afterLastClose_append (a b : List Char) (h : hasClose b = true) :
    afterLastClose (a ++ b) = afterLastClose b := by
  unfold afterLastClose
  rw [List.reverse_append]
  rw [takeWhile_all_append]
  simp only [hasClose, List.any_eq_true] at h
  obtain ⟨x, hx, hbeq⟩ := h
  rw [beq_iff_eq] at hbeq
  refine ⟨x, by simpa using hx, by simp [hbeq]⟩

theorem hasClose_drop_false (l : List Char) (n : Nat) (h : hasClose l = false) :
    hasClose (l.drop n) = false := by
  unfold hasClose at h ⊢
  rw [Bool.eq_false_iff] at h ⊢
  intro hx
  apply h
  rw [List.any_eq_true] at hx ⊢
  obtain ⟨x, hx1, hx2⟩ := hx
  exact ⟨x, List.drop_subset n l hx1, hx2⟩

theorem starAux_close (k : List Char → Option MRes)
    (hk : ∀ r, k r = (match r with
      | [] => none
      | c :: cs => if c = ')' then some (cs, ([] : Caps)) else none)) :
    ∀ s : List Char, starAux anyCh k s =
      if hasClose s then some (afterLastClose s, []) else none := by
  intro s
  induction s with
  | nil =>
    rw [starAux, hk]
    simp [hasClose]
  | cons c rest ih =>
    rw [starAux]
    simp only [anyCh, if_true]
    rw [ih]
    by_cases hrest : hasClose rest = true
    · rw [if_pos hrest]
      have hcr : hasClose (c :: rest) = true := by
        simp only [hasClose, List.any_cons, Bool.or_eq_true]
        right
        exact hrest
      rw [if_pos hcr]
      have halc : afterLastClose (c :: rest) = afterLastClose rest := by
        unfold afterLastClose
        rw [List.reverse_cons]
        rw [takeWhile_all_append]
        simp only [hasClose, List.any_eq_true] at hrest
        obtain ⟨x, hx, hbeq⟩ := hrest
        rw [beq_iff_eq] at hbeq
        exact ⟨x, by simpa using hx, by simp [hbeq]⟩
      rw [halc]
    · rw [if_neg hrest, hk]
      rw [Bool.not_eq_true] at hrest
      show (if c = ')' then some (rest, ([] : Caps)) else none) =
        if hasClose (c :: rest) = true then some (afterLastClose (c :: rest), []) else none
      by_cases hc : c = ')'
      · rw [if_pos hc]
        have hcr : hasClose (c :: rest) = true := by
          simp [hasClose, hc]
        rw [if_pos hcr]
        have hnr : hasClose rest.reverse = false := by
          unfold hasClose
          rw [List.any_reverse]
          exact hrest
        have hts : rest.reverse.takeWhile (fun x => x != ')') = rest.reverse :=
          takeWhile_eq_self_of_no_close rest.reverse hnr
        have halc : afterLastClose (c :: rest) = rest := by
          unfold afterLastClose
          rw [List.reverse_cons, List.takeWhile_append, hts]
          rw [if_pos rfl, hc]
          simp [List.takeWhile_cons]
        rw [halc]
      · rw [if_neg hc]
        have hcr : hasClose (c :: rest) = false := by
          simp only [hasClose, List.any_cons, Bool.or_eq_false_iff]
          exact ⟨by simpa using hc, hrest⟩
        rw [if_neg (by simp [hcr])]

theorem tryMatch_distkey_none (s : List Char)
    (h : stripLitCI "distkey".data s = none) :
    tryMatch distkeyCloseRx s = none := by
  simp only [tryMatch, distkeyCloseRx, rcat, List.foldr, rlit, matchRx, h]

theorem tryMatch_distkey_some (s r : List Char)
    (h : stripLitCI "distkey".data s = some r) :
    tryMatch distkeyCloseRx s =
      if hasClose r then some (afterLastClose r, []) else none := by
  simp only [tryMatch, distkeyCloseRx, rcat, List.foldr, rlit, matchRx, h]
  rw [starAux_close]
  intro r2
  cases r2 with
  | nil => rfl
  | cons c2 cs2 =>
    show (match stripLitCI ")".data (c2 :: cs2) with
      | some rest => some (rest, ([] : Caps))
      | none => none) = if c2 = ')' then some (cs2, ([] : Caps)) else none
    have hd : (")".data) = [')'] := rfl
    rw [hd]
    simp only [stripLitCI]
    by_cases hc : c2 = ')'
    · rw [if_pos ((toLower_close_iff c2).mpr hc), if_pos hc]
    · rw [if_neg (fun hl => hc ((toLower_close_iff c2).mp hl)), if_neg hc]

theorem subAuxF_no_close (fuel : Nat) :
    ∀ t : List Char, hasClose t = false →
      subAuxF distkeyCloseRx [] fuel t = t := by
  induction fuel with
  | zero => intro t _; rfl
  | succ fuel ih =>
    intro t h
    cases t with
    | nil =>
      rw [subAuxF, tryMatch_distkey_none [] rfl]
    | cons c t2 =>
      have ht2 : hasClose t2 = false := by
        simp only [hasClose, List.any_cons, Bool.or_eq_false_iff] at h
        exact h.2
      rw [subAuxF]
      cases hst : stripLitCI "distkey".data (c :: t2) with
      | none =>
        rw [tryMatch_distkey_none _ hst]
        rw [ih t2 ht2]
      | some r =>
        have hr : hasClose r = false := by
          have hrd := stripLitCI_some _ _ _ hst
          rw [hrd]
          exact hasClose_drop_false _ _ h
        rw [tryMatch_distkey_some _ _ hst, if_neg (by simp [hr])]
        rw [ih t2 ht2]

theorem subAuxF_distkey (fuel : Nat) :
    ∀ (s : List Char) (i : Nat), s.length < fuel →
      firstOccCI "distkey".data s = some i →
      hasClose (s.drop (i + 7)) = true →
      subAuxF distkeyCloseRx [] fuel s =
        s.take i ++ afterLastClose (s.drop (i + 7)) := by
  induction fuel with
  | zero =>
    intro s i hlen
    exact absurd hlen (by omega)
  | succ fuel ih =>
    intro s i hlen hfst hpar
    cases s with
    | nil =>
      have : firstOccCI "distkey".data [] = none := rfl
      rw [this] at hfst
      exact absurd hfst (by simp)
    | cons c t =>
      rw [subAuxF]
      cases hst : stripLitCI "distkey".data (c :: t) with
      | some r =>
        have hi : i = 0 := by
          rw [firstOccCI, hst] at hfst
          exact (Option.some.injEq _ _).mp hfst.symm
        subst hi
        have hlendk : ("distkey".data).length = 7 := rfl
        have hr : r = (c :: t).drop 7 := by
          rw [stripLitCI_some _ _ _ hst, hlendk]
        rw [Nat.zero_add] at hpar
        rw [tryMatch_distkey_some _ _ hst, hr, if_pos hpar]
        show (if (afterLastClose (List.drop 7 (c :: t))).length < t.length + 1 then
            applyRepl [] [] ++
              subAuxF distkeyCloseRx [] fuel (afterLastClose (List.drop 7 (c :: t)))
          else applyRepl [] [] ++ c :: subAuxF distkeyCloseRx [] fuel t) =
          List.take 0 (c :: t) ++ afterLastClose (List.drop (0 + 7) (c :: t))
        have hlt : (afterLastClose ((c :: t).drop 7)).length < t.length + 1 := by
          have h1 := afterLastClose_length_le ((c :: t).drop 7)
          have h2 : ((c :: t).drop 7).length = (c :: t).length - 7 :=
            List.length_drop 7 (c :: t)
          have h3 : (c :: t).length = t.length + 1 := List.length_cons c t
          omega
        rw [if_pos hlt]
        rw [subAuxF_no_close fuel _ (hasClose_afterLastClose _)]
        rfl
      | none =>
        rw [firstOccCI, hst] at hfst
        rcases Option.map_eq_some'.mp hfst with ⟨j, hj, hji⟩
        subst hji
        have hdrop : (c :: t).drop (j + 1 + 7) = t.drop (j + 7) := by
          have hadd : j + 1 + 7 = (j + 7) + 1 := by omega
          rw [hadd, List.drop_succ_cons]
        rw [hdrop] at hpar
        rw [tryMatch_distkey_none _ hst]
        show c :: subAuxF distkeyCloseRx [] fuel t =
          List.take (j + 1) (c :: t) ++ afterLastClose (List.drop (j + 1 + 7) (c :: t))
        have hlen2 : t.length < fuel := by
          have h3 : (c :: t).length = t.length + 1 := List.length_cons c t
          omega
        rw [ih t j hlen2 hj hpar]
        rw [List.take_succ_cons, List.cons_append, hdrop]

/- Supporting lemmas for the general behavior of `parse_atrt` on a whole
rename statement. -/

theorem stripLitCI_refl_append (l r : List Char) : stripLitCI l (l ++ r) = some r := by
  induction l with
  | nil => rfl
  | cons p ps ih => simp [stripLitCI, ih]

theorem starAux_words (p : Char → Bool) (k : List Char → Option MRes)
    (a tail : List Char) (res : MRes)
    (ha : ∀ c ∈ a, p c = true)
    (ht : ∀ c t2, tail = c :: t2 → p c = false)
    (hk : k tail = some res) :
    starAux p k (a ++ tail) = some res := by
  induction a with
  | nil =>
    cases tail with
    | nil => simpa [starAux] using hk
    | cons c t2 =>
      have hc : p c = false := ht c t2 rfl
      simpa [starAux, hc] using hk
  | cons x a2 ih =>
    have hx : p x = true := ha x (List.mem_cons_self x a2)
    have ih2 := ih (fun c hc => ha c (List.mem_cons_of_mem x hc))
    rw [List.cons_append, starAux, ih2]
    simp [hx]

theorem tryMatch_nil_of_lit_cons (l : List Char) (c : Char) (cs : List Char)
    (rest : Rx) (h : l = c :: cs) :
    tryMatch (Rx.seq (Rx.lit l) rest) [] = none := by
  subst h
  rfl

theorem subAuxF_nil_of_none (r : Rx) (repl : Repl) (hnil : tryMatch r [] = none) :
    ∀ fuel, subAuxF r repl fuel [] = [] := by
  intro fuel
  cases fuel with
  | zero => rfl
  | succ f => rw [subAuxF, hnil]

theorem starAux_words_all (p : Char → Bool) (k : List Char → Option MRes)
    (a : List Char) (res : MRes)
    (ha : ∀ c ∈ a, p c = true) (hk : k [] = some res) :
    starAux p k a = some res := by
  have h := starAux_words p k a [] res ha (fun c t2 habs => absurd habs (by simp)) hk
  simpa using h

theorem subAuxF_full_match (r : Rx) (repl : Repl) (fuel : Nat) (s : List Char)
    (caps : Caps) (hs : s ≠ []) (hm : tryMatch r s = some ([], caps))
    (hnil : tryMatch r [] = none) :
    subAuxF r repl (fuel + 1) s = applyRepl caps repl := by
  obtain ⟨c, s2, rfl⟩ := List.exists_cons_of_ne_nil hs
  rw [subAuxF, hm]
  show (if ([] : List Char).length < s2.length + 1 then
      applyRepl caps repl ++ subAuxF r repl fuel []
    else applyRepl caps repl ++ c :: subAuxF r repl fuel s2) = applyRepl caps repl
  rw [if_pos (by simp)]
  rw [subAuxF_nil_of_none r repl hnil fuel]
  exact List.append_nil _

theorem atrt_tail3 (n : List Char) (hn0 : n ≠ []) (hn : ∀ c ∈ n, isWordP c = true)
    (caps : Caps) :
    matchRx (Rx.seq (Rx.grp 3 (Rx.plus isWordP)) (Rx.lit [])) n caps
      (fun rest cp => some (rest, cp)) = some ([], (3, n) :: caps) := by
  obtain ⟨n0, n2, rfl⟩ := List.exists_cons_of_ne_nil hn0
  have hn0w : isWordP n0 = true := hn n0 (List.mem_cons_self _ _)
  simp only [matchRx, stripLitCI, hn0w, eq_self_iff_true, if_true]
  refine starAux_words_all isWordP _ n2 _
    (fun c hc => hn c (List.mem_cons_of_mem n0 hc)) ?_
  simp

theorem atrt_tail2 (n : List Char) (hn0 : n ≠ []) (hn : ∀ c ∈ n, isWordP c = true)
    (caps : Caps) :
    matchRx (Rx.seq (Rx.lit " rename to ".data)
        (Rx.seq (Rx.grp 3 (Rx.plus isWordP)) (Rx.lit [])))
      (" rename to ".data ++ n) caps
      (fun rest cp => some (rest, cp)) = some ([], (3, n) :: caps) := by
  simp only [matchRx, stripLitCI_refl_append]
  exact atrt_tail3 n hn0 hn caps

theorem atrt_tailb (b n : List Char) (hb0 : b ≠ []) (hn0 : n ≠ [])
    (hb : ∀ c ∈ b, isWordP c = true) (hn : ∀ c ∈ n, isWordP c = true)
    (caps : Caps) :
    matchRx (Rx.seq (Rx.grp 2 (Rx.plus isWordP))
        (Rx.seq (Rx.lit " rename to ".data)
          (Rx.seq (Rx.grp 3 (Rx.plus isWordP)) (Rx.lit []))))
      (b ++ (" rename to ".data ++ n)) caps
      (fun rest cp => some (rest, cp)) = some ([], (3, n) :: (2, b) :: caps) := by
  obtain ⟨b0, b2, rfl⟩ := List.exists_cons_of_ne_nil hb0
  have hb0w : isWordP b0 = true := hb b0 (List.mem_cons_self _ _)
  simp only [List.cons_append, matchRx, hb0w, eq_self_iff_true, if_true]
  refine starAux_words isWordP _ b2 (" rename to ".data ++ n) _
    (fun c hc => hb c (List.mem_cons_of_mem b0 hc)) ?_ ?_
  · intro c t2 h
    have h' : ' ' :: ("rename to ".data ++ n) = c :: t2 := h
    injection h' with h1 _
    rw [← h1]
    rfl
  · show matchRx (Rx.seq (Rx.lit " rename to ".data)
        (Rx.seq (Rx.grp 3 (Rx.plus isWordP)) (Rx.lit [])))
      (" rename to ".data ++ n)
      ((2, (b0 :: (b2 ++ (" rename to ".data ++ n))).take
        ((b0 :: (b2 ++ (" rename to ".data ++ n))).length -
          (" rename to ".data ++ n).length)) :: caps)
      (fun rest cp => some (rest, cp)) = some ([], (3, n) :: (2, b0 :: b2) :: caps)
    have hcap : (b0 :: (b2 ++ (" rename to ".data ++ n))).take
        ((b0 :: (b2 ++ (" rename to ".data ++ n))).length -
          (" rename to ".data ++ n).length) = b0 :: b2 := by
      rw [List.length_cons, List.length_append]
      rw [show b2.length + (" rename to ".data ++ n).length + 1 -
          (" rename to ".data ++ n).length = b2.length + 1 from by omega]
      rw [List.take_succ_cons, List.take_left]
    rw [hcap]
    exact atrt_tail2 n hn0 hn ((2, b0 :: b2) :: caps)

theorem atrt_taila (a b n : List Char) (ha0 : a ≠ []) (hb0 : b ≠ []) (hn0 : n ≠ [])
    (ha : ∀ c ∈ a, isWordP c = true) (hb : ∀ c ∈ b, isWordP c = true)
    (hn : ∀ c ∈ n, isWordP c = true) (caps : Caps) :
    matchRx (Rx.seq (Rx.grp 1 (Rx.plus isWordP))
        (Rx.seq (Rx.lit ".".data)
          (Rx.seq (Rx.grp 2 (Rx.plus isWordP))
            (Rx.seq (Rx.lit " rename to ".data)
              (Rx.seq (Rx.grp 3 (Rx.plus isWordP)) (Rx.lit []))))))
      (a ++ ('.' :: (b ++ (" rename to ".data ++ n)))) caps
      (fun rest cp => some (rest, cp)) =
      some ([], (3, n) :: (2, b) :: (1, a) :: caps) := by
  obtain ⟨a0, a2, rfl⟩ := List.exists_cons_of_ne_nil ha0
  have ha0w : isWordP a0 = true := ha a0 (List.mem_cons_self _ _)
  simp only [List.cons_append, matchRx, ha0w, eq_self_iff_true, if_true]
  refine starAux_words isWordP _ a2 ('.' :: (b ++ (" rename to ".data ++ n))) _
    (fun c hc => ha c (List.mem_cons_of_mem a0 hc)) ?_ ?_
  · intro c t2 h
    injection h with h1 _
    rw [← h1]
    rfl
  · show matchRx (Rx.seq (Rx.lit ".".data)
        (Rx.seq (Rx.grp 2 (Rx.plus isWordP))
          (Rx.seq (Rx.lit " rename to ".data)
            (Rx.seq (Rx.grp 3 (Rx.plus isWordP)) (Rx.lit [])))))
      ('.' :: (b ++ (" rename to ".data ++ n)))
      ((1, (a0 :: (a2 ++ ('.' :: (b ++ (" rename to ".data ++ n))))).take
        ((a0 :: (a2 ++ ('.' :: (b ++ (" rename to ".data ++ n))))).length -
          ('.' :: (b ++ (" rename to ".data ++ n))).length)) :: caps)
      (fun rest cp => some (rest, cp)) =
      some ([], (3, n) :: (2, b) :: (1, a0 :: a2) :: caps)
    have hcap : (a0 :: (a2 ++ ('.' :: (b ++ (" rename to ".data ++ n))))).take
        ((a0 :: (a2 ++ ('.' :: (b ++ (" rename to ".data ++ n))))).length -
          ('.' :: (b ++ (" rename to ".data ++ n))).length) = a0 :: a2 := by
      rw [List.length_cons, List.length_append]
      rw [show a2.length + ('.' :: (b ++ (" rename to ".data ++ n))).length + 1 -
          ('.' :: (b ++ (" rename to ".data ++ n))).length = a2.length + 1 from by omega]
      rw [List.take_succ_cons, List.take_left]
    rw [hcap]
    have hd : ('.' : Char) :: (b ++ (" rename to ".data ++ n)) =
        ".".data ++ (b ++ (" rename to ".data ++ n)) := rfl
    rw [hd]
    simp only [matchRx, stripLitCI_refl_append]
    exact atrt_tailb b n hb0 hn0 hb hn ((1, a0 :: a2) :: caps)

theorem atrt_match (a b n : List Char) (ha0 : a ≠ []) (hb0 : b ≠ []) (hn0 : n ≠ [])
    (ha : ∀ c ∈ a, isWordP c = true) (hb : ∀ c ∈ b, isWordP c = true)
    (hn : ∀ c ∈ n, isWordP c = true) :
    tryMatch (rcat [rlit "alter table ", Rx.grp 1 (Rx.plus isWordP), rlit ".",
        Rx.grp 2 (Rx.plus isWordP), rlit " rename to ", Rx.grp 3 (Rx.plus isWordP)])
      ("alter table ".data ++ (a ++ ('.' :: (b ++ (" rename to ".data ++ n))))) =
      some ([], [(3, n), (2, b), (1, a)]) := by
  simp only [tryMatch, rcat, List.foldr, rlit, matchRx, stripLitCI_refl_append]
  exact atrt_taila a b n ha0 hb0 hn0 ha hb hn []

theorem parse_atrt_general (a b n : List Char)
    (ha0 : a ≠ []) (hb0 : b ≠ []) (hn0 : n ≠ [])
    (ha : ∀ c ∈ a, isWordP c = true) (hb : ∀ c ∈ b, isWordP c = true)
    (hn : ∀ c ∈ n, isWordP c = true) :
    parse_atrt (String.mk ("alter table ".data ++
        (a ++ ('.' :: (b ++ (" rename to ".data ++ n)))))) =
      String.mk ("alter table ".data ++
        (a ++ ('.' :: (b ++ (" rename to ".data ++ (a ++ ('.' :: n))))))) := by
  have hS : ("alter table ".data ++
      (a ++ ('.' :: (b ++ (" rename to ".data ++ n))))) ≠ [] := by
    intro h
    rw [List.append_eq_nil] at h
    exact absurd h.1 (by decide)
  have hnil : tryMatch (rcat [rlit "alter table ", Rx.grp 1 (Rx.plus isWordP),
      rlit ".", Rx.grp 2 (Rx.plus isWordP), rlit " rename to ",
      Rx.grp 3 (Rx.plus isWordP)]) [] = none := rfl
  have hfull := subAuxF_full_match
    (rcat [rlit "alter table ", Rx.grp 1 (Rx.plus isWordP), rlit ".",
      Rx.grp 2 (Rx.plus isWordP), rlit " rename to ", Rx.grp 3 (Rx.plus isWordP)])
    [rstr "alter table ", rref 1, rstr ".", rref 2, rstr " rename to ",
      rref 1, rstr ".", rref 3]
    ("alter table ".data ++ (a ++ ('.' :: (b ++ (" rename to ".data ++ n))))).length
    ("alter table ".data ++ (a ++ ('.' :: (b ++ (" rename to ".data ++ n)))))
    [(3, n), (2, b), (1, a)] hS (atrt_match a b n ha0 hb0 hn0 ha hb hn) hnil
  calc parse_atrt (String.mk ("alter table ".data ++
        (a ++ ('.' :: (b ++ (" rename to ".data ++ n))))))
      = String.mk (subAuxF
          (rcat [rlit "alter table ", Rx.grp 1 (Rx.plus isWordP), rlit ".",
            Rx.grp 2 (Rx.plus isWordP), rlit " rename to ",
            Rx.grp 3 (Rx.plus isWordP)])
          [rstr "alter table ", rref 1, rstr ".", rref 2, rstr " rename to ",
            rref 1, rstr ".", rref 3]
          (("alter table ".data ++
            (a ++ ('.' :: (b ++ (" rename to ".data ++ n))))).length + 1)
          ("alter table ".data ++
            (a ++ ('.' :: (b ++ (" rename to ".data ++ n)))))) := rfl
    _ = String.mk (applyRepl [(3, n), (2, b), (1, a)]
          [rstr "alter table ", rref 1, rstr ".", rref 2, rstr " rename to ",
            rref 1, rstr ".", rref 3]) := by rw [hfull]
    _ = String.mk ("alter table ".data ++
          (a ++ ('.' :: (b ++ (" rename to ".data ++ (a ++ ('.' :: n))))))) := by
        show String.mk ("alter table ".data ++
          (a ++ ('.' :: (b ++ (" rename to ".data ++ (a ++ ('.' :: (n ++ [])))))))) = _
        rw [List.append_nil]

/-- C1: per-rule failure isolation.  For any text that is still non-empty
when a failing rule is reached, the driver catches the failure and
continues with the pre-failure text unchanged as input to the remaining
rules, and the pipeline still returns a result (the driver is a total
function; the failure never propagates to the caller). -/
theorem c1_failure_isolation (pre post : List Rule) (r : Rule) (s e : String)
    (hs : s ≠ "") (ht : runRules pre s ≠ "")
    (hr : r (runRules pre s) = Except.error e) :
    parse_redshift_to_snowflake_with (pre ++ r :: post) s =
      runRules post (runRules pre s) := by
  unfold parse_redshift_to_snowflake_with
  rw [if_neg hs, runRules_append]
  simp [runRules, ht, hr]

/-- Witness for C1: a rule that always raises, inserted before the
trailing-whitespace rule, is skipped and the remaining rule still runs. -/
theorem c1_failure_isolation_witness :
    parse_redshift_to_snowflake_with
        ([] ++ (fun _ => Except.error "rule failure") ::
          [ruleOfFn parse_trailing_whitespace]) "create table t (a int) \n\n  " =
      runRules [ruleOfFn parse_trailing_whitespace]
        (runRules [] "create table t (a int) \n\n  ") :=
  c1_failure_isolation [] [ruleOfFn parse_trailing_whitespace]
    (fun _ => Except.error "rule failure") "create table t (a int) \n\n  "
    "rule failure" (by decide) (by decide) rfl

/-- C2: empty text is terminal.  Empty input is returned unchanged with
zero rules invoked, a null input is returned unchanged, and once the text
becomes empty mid-pipeline all remaining rules are skipped and the empty
text is returned. -/
theorem c2_empty_terminal (rules pre post : List Rule) (s : String) :
    parse_redshift_to_snowflake_with rules "" = "" ∧
    (runRulesCount rules "").2 = 0 ∧
    parse_redshift_to_snowflake_opt none = none ∧
    (runRules pre s = "" → runRules (pre ++ post) s = "") := by
  refine ⟨rfl, ?_, rfl, ?_⟩
  · cases rules <;> simp [runRulesCount]
  · intro h
    rw [runRules_append, h, runRules_nil_input]

/-- Witness for C2: the concurrency-slot rule empties its input and the
following rule is then skipped, returning the empty text. -/
theorem c2_empty_terminal_witness :
    runRules ([ruleOfFn parse_wlm_query_slot_count] ++
        [ruleOfFn parse_trailing_whitespace]) "set wlm_query_slot_count to 5;" = "" :=
  (c2_empty_terminal parsers [ruleOfFn parse_wlm_query_slot_count]
    [ruleOfFn parse_trailing_whitespace] "set wlm_query_slot_count to 5;").2.2.2
    (by decide)

/-- C3 counterexample: `parse_swap_methods` (the seventh registry rule) is
not idempotent-safe — a second application changes `"ISNULL(a)"` further,
because the `ISNULL(` → `NVL(` replacement re-triggers the same rule's
`NVL` → `COALESCE` mapping. -/
theorem c3_swap_not_idempotent :
    List.get? parsers 6 = some (ruleOfFn parse_swap_methods) ∧
    parse_swap_methods (parse_swap_methods "ISNULL(a)") ≠
      parse_swap_methods "ISNULL(a)" :=
  ⟨rfl, by decide⟩

/-- C3 amended: not every registry rule is idempotent-safe.
`parse_trailing_whitespace` is (a second application never changes the
text), but `parse_swap_methods` is not: it maps `ISNULL(` to `NVL(`, and
`NVL` matches the same rule's `NVL` → `COALESCE` pattern, so the second
application rewrites the first application's output further. -/
theorem c3_amended_idempotence :
    (∀ s : String, parse_trailing_whitespace (parse_trailing_whitespace s) =
      parse_trailing_whitespace s) ∧
    parse_swap_methods "ISNULL(a)" = "NVL(a)" ∧
    parse_swap_methods "NVL(a)" = "COALESCE(a)" :=
  ⟨parse_trailing_whitespace_idem, by decide, by decide⟩

/-- C4 counterexample: the final text returned by the pipeline can retain
trailing whitespace — on `"x analyze t;"` the analyze-removal rule (which
runs after the trailing-whitespace rule) leaves `"x "`, whose trailing
whitespace is not stripped. -/
theorem c4_not_stripped_counterexample :
    parse_redshift_to_snowflake "x analyze t;" = "x " ∧
    parse_trailing_whitespace "x " ≠ "x " :=
  ⟨by decide, by decide⟩

/-- C4 amended: trailing-whitespace normalization is a mid-registry rule,
the sixth of sixteen (the last rule is the date-trunc-weeks rule), so a
later rule's output can leave trailing whitespace in the final result, as
on input `"x analyze t;"`. -/
theorem c4_amended_position :
    parsers.length = 16 ∧
    List.get? parsers 5 = some (ruleOfFn parse_trailing_whitespace) ∧
    parsers.getLast? = some (ruleOfFn parse_convert_date_trunc_weeks) ∧
    parse_redshift_to_snowflake "x analyze t;" = "x " :=
  ⟨rfl, rfl, rfl, by decide⟩

/-- C5: on the claim's input the pipeline strips the diststyle and distkey
hints: the output is `"create table foo (a int) ;"`, which contains no
diststyle/distkey fragment, has balanced parentheses, and retains the
`"create table foo (a int )"` shape (compared with spaces erased, since
the two texts differ only in inner whitespace).  The last two conjuncts
show the comma (mid-statement) mode — an encoding hint followed by a
comma leaves the neighbouring columns intact — and the closing-paren
(end) mode for a sortkey hint. -/
theorem c5_hint_removal :
    parse_redshift_to_snowflake
        "create table foo (a int) diststyle even distkey(a);" =
      "create table foo (a int) ;" ∧
    containsSub (parse_redshift_to_snowflake
        "create table foo (a int) diststyle even distkey(a);").data
      "diststyle".data = false ∧
    containsSub (parse_redshift_to_snowflake
        "create table foo (a int) diststyle even distkey(a);").data
      "distkey".data = false ∧
    parenOk (parse_redshift_to_snowflake
        "create table foo (a int) diststyle even distkey(a);").data 0 = true ∧
    List.isPrefixOf (dropSpaces "create table foo (a int )".data)
      (dropSpaces (parse_redshift_to_snowflake
        "create table foo (a int) diststyle even distkey(a);").data) = true ∧
    parse_encoding "a int encode lzo, b int" = "a int, b int" ∧
    parse_redshift_to_snowflake "create table t (a int) sortkey(a);" =
      "create table t (a int) ;" :=
  ⟨by decide, by decide, by decide, by decide, by decide, by decide, by decide⟩

/-- C6 counterexample: the concurrency-slot statement is deleted outright
by the pipeline — nothing of it (no comment) remains in the output. -/
theorem c6_wlm_deleted_counterexample :
    parse_redshift_to_snowflake "set wlm_query_slot_count to 5;" = "" := by
  decide

/-- C6 amended: concurrency-slot statements are deleted (replaced by the
empty string), not commented out; a statement on its own line leaves an
empty line behind (the newline is untouched), while a bare statement
becomes the empty text.  Search-path statements are translated to the
schema-context statement `use schema`. -/
theorem c6_amended_behavior :
    parse_redshift_to_snowflake "set wlm_query_slot_count to 5;" = "" ∧
    parse_redshift_to_snowflake
        "select 1;\nset wlm_query_slot_count to 5;\nselect 2;" =
      "select 1;\n\nselect 2;" ∧
    parse_redshift_to_snowflake "set search_path to myschema" =
      "use schema myschema" :=
  ⟨by decide, by decide, by decide⟩

/-- C7: table-rename qualification.  For every rename statement
`alter table <schema>.<table> rename to <newname>` built from non-empty
word-character names, `parse_atrt` injects the schema qualifier taken from
the source table reference in front of the unqualified single-word rename
target; and on the claim's named input the full pipeline produces the
qualified form. -/
theorem c7_rename_qualified :
    (∀ a b n : List Char, a ≠ [] → b ≠ [] → n ≠ [] →
      (∀ c ∈ a, isWordP c = true) → (∀ c ∈ b, isWordP c = true) →
      (∀ c ∈ n, isWordP c = true) →
      parse_atrt (String.mk ("alter table ".data ++
          (a ++ ('.' :: (b ++ (" rename to ".data ++ n)))))) =
        String.mk ("alter table ".data ++
          (a ++ ('.' :: (b ++ (" rename to ".data ++ (a ++ ('.' :: n)))))))) ∧
    parse_redshift_to_snowflake "alter table myschema.mytable rename to newname" =
      "alter table myschema.mytable rename to myschema.newname" :=
  ⟨fun a b n ha0 hb0 hn0 ha hb hn => parse_atrt_general a b n ha0 hb0 hn0 ha hb hn,
   by decide⟩

/-- Witness for C7: the general statement applied at the claim's names. -/
theorem c7_rename_qualified_witness :
    parse_atrt (String.mk ("alter table ".data ++
        ("myschema".data ++ ('.' :: ("mytable".data ++
          (" rename to ".data ++ "newname".data)))))) =
      String.mk ("alter table ".data ++
        ("myschema".data ++ ('.' :: ("mytable".data ++
          (" rename to ".data ++ ("myschema".data ++ ('.' :: "newname".data))))))) :=
  c7_rename_qualified.1 "myschema".data "mytable".data "newname".data
    (by decide) (by decide) (by decide) (by decide) (by decide) (by decide)

/-- C8 counterexample: a `bool` column type immediately before the closing
paren is not rewritten (the pattern requires a following comma or
newline), and a `::bool` cast not followed by a space is not rewritten
(the pattern requires a trailing space): both inputs pass through the
pipeline unchanged, with no `boolean` in the output. -/
theorem c8_bool_counterexample :
    parse_redshift_to_snowflake "create table t (a bool)" =
      "create table t (a bool)" ∧
    containsSub (parse_redshift_to_snowflake "create table t (a bool)").data
      "boolean".data = false ∧
    parse_redshift_to_snowflake "select a::bool,b from t" =
      "select a::bool,b from t" :=
  ⟨by decide, by decide, by decide⟩

/-- C8 amended: `bool` is rewritten to `boolean` only when followed (after
optional whitespace) by a comma or newline in column position, and a
`::bool` cast only when followed by a space; a `bool` directly before the
closing paren and a `::bool` cast followed by a comma are left unchanged. -/
theorem c8_amended_bool :
    parse_redshift_to_snowflake "create table t (a bool, b int)" =
      "create table t (a boolean, b int)" ∧
    parse_redshift_to_snowflake "select a::bool from t" =
      "select a:: boolean from t" ∧
    parse_redshift_to_snowflake "create table t (a bool)" =
      "create table t (a bool)" ∧
    parse_redshift_to_snowflake "select a::bool,b from t" =
      "select a::bool,b from t" :=
  ⟨by decide, by decide, by decide, by decide⟩

/-- C9: order dependence of `parse_dist_sort` and
`parse_trailing_whitespace` — on `"x distkey "`, hint removal then
whitespace cleanup gives `"x"`, the opposite order gives `"x "`. -/
theorem c9_order_dependence :
    ∃ s : String, parse_trailing_whitespace (parse_dist_sort s) ≠
      parse_dist_sort (parse_trailing_whitespace s) :=
  ⟨"x distkey ", by decide⟩

/-- C10: greedy distkey deletion span.  For every text whose first
case-insensitive `distkey` occurrence starts at index `i` and that has a
closing parenthesis somewhere after it, the `distkey.*\)` substitution of
`parse_dist_sort` (pattern `distkeyCloseRx`, dot-matches-newline) deletes
everything from that `distkey` through the last closing parenthesis of
the whole text (`7` is the length of `distkey`).  In particular, on the
claim's input the columns after the distkey attribute and the table's
closing paren are deleted; a later parenthesis extends the span; and the
span crosses newlines. -/
theorem c10_greedy_distkey :
    (∀ (s : String) (i : Nat),
        firstOccCI "distkey".data s.data = some i →
        hasClose (s.data.drop (i + 7)) = true →
        reSub distkeyCloseRx [] s =
          String.mk (s.data.take i ++ afterLastClose s.data)) ∧
    parse_dist_sort "create table t (a int distkey, b int)" =
      "create table t (a int " ∧
    parse_dist_sort "create table t (a int distkey, b int) x()y" =
      "create table t (a int y" ∧
    parse_dist_sort "create table t (\na int distkey,\nb int\n)" =
      "create table t (\na int " := by
  refine ⟨?_, by decide, by decide, by decide⟩
  intro s i hfst hpar
  unfold reSub subAux
  rw [subAuxF_distkey (s.data.length + 1) s.data i (by omega) hfst hpar]
  rw [show afterLastClose s.data = afterLastClose (s.data.drop (i + 7)) from by
    conv_lhs => rw [(List.take_append_drop (i + 7) s.data).symm]
    exact afterLastClose_append _ _ hpar]

/-- Witness for C10: the general statement applied at a concrete input
(first `distkey` occurrence at index 2, closing parenthesis after it). -/
theorem c10_greedy_distkey_witness :
    reSub distkeyCloseRx [] "x distkey y) z" =
      String.mk ("x distkey y) z".data.take 2 ++
        afterLastClose "x distkey y) z".data) :=
  c10_greedy_distkey.1 "x distkey y) z" 2 (by decide) (by decide)

